import Mathlib

/-!
Verification of the NOELLE induction-variable subsystem
(`src/parallelization_utilities/src/InductionVariables.cpp`) and of the
runtime thread-safe task queue (`tests/DSWP_concat/threadpooler.cpp`).

The C++ code is shallowly embedded: program values and basic blocks are
`Nat` identifiers, SCEV classifications and comparison predicates are
inductive types, and each constructor / member function becomes a Lean
function over explicit state.
-/

namespace Noelle

/-- Shape of a scalar-evolution classification, mirroring the `SCEVTypes`
cases the code inspects (`scConstant`, `scAddRecExpr`, `scAddExpr`,
`scMulExpr`, `scUnknown`). An add-recurrence carries its step expression. -/
inductive SCEV where
  | scConstant (v : Int)
  | scAddRecExpr (step : SCEV)
  | scAddExpr
  | scMulExpr
  | scUnknown
deriving DecidableEq

/-- Step extraction of `InductionVariable::InductionVariable`: the step
recurrence of the header SCEV is stored only when it is a literal constant
(`scConstant`); every other shape leaves the step absent (`stepSize = nullptr`). -/
def stepOfRecurrence : SCEV → Option Int
  | SCEV.scConstant v => some v
  | _ => none

/-- A header PHI node together with its scalar-evolution classification,
the inputs `InductionVariables::InductionVariables` inspects per PHI. -/
structure PhiInfo where
  id : Nat
  scev : SCEV
deriving DecidableEq

/-- The step size the constructed `InductionVariable` would carry for this
header PHI: present only when the PHI is an add-recurrence with a literal
constant step. -/
def phiStepSize (phi : PhiInfo) : Option Int :=
  match phi.scev with
  | SCEV.scAddRecExpr s => stepOfRecurrence s
  | _ => none

/-- Body of the per-loop loop of `InductionVariables::InductionVariables`:
walk the header PHIs in order; skip PHIs whose SCEV is not an add-recurrence
and delete (drop) constructed IVs whose step is not a literal constant — both
paths leave the maps untouched and occur exactly when `phiStepSize` is
absent; insert the rest into the loop's IV set; and register the IV as
governing when its attribution is well formed, a later well-formed PHI
overwriting an earlier one. The
attribution outcome is abstracted as the predicate `wf`. Returns the loop's
IV set together with its governing IV, if any. -/
def registerIVs (wf : PhiInfo → Bool) : List PhiInfo → List PhiInfo × Option PhiInfo
  | [] => ([], none)
  | phi :: rest =>
    let r := registerIVs wf rest
    match phiStepSize phi with
    | some _ =>
      (phi :: r.1,
        match r.2 with
        | some g => some g
        | none => if wf phi then some phi else none)
    | none => r

/-- A loop as `InductionVariables` consumes it: an identifier and the list
of PHI nodes of its header block. -/
structure LoopInfoM where
  loopId : Nat
  headerPhis : List PhiInfo
deriving DecidableEq

/-- The whole `InductionVariables` constructor: for every loop of the
summary, build `loopToIVsMap` and `loopToGoverningIVMap` entries via
`registerIVs`. The result pairs each loop id with (IV set, governing IV). -/
def inductionVariables (wf : PhiInfo → Bool) (loops : List LoopInfoM) :
    List (Nat × (List PhiInfo × Option PhiInfo)) :=
  loops.map (fun l => (l.loopId, registerIVs wf l.headerPhis))

/-- Kinds of IR values the subsystem distinguishes via `isa` / `dyn_cast`:
PHI nodes, comparisons, conditional and unconditional branches,
`getelementptr` instructions, other instructions, and non-instruction
values (arguments, constants). -/
inductive ValueKind where
  | phi
  | cmpK
  | condBranch
  | uncondBranch
  | gep
  | otherInst
  | nonInst
deriving DecidableEq

/-- Whether a value kind is an instruction (`dyn_cast<Instruction>` succeeds). -/
def ValueKind.isInstruction : ValueKind → Bool
  | ValueKind.nonInst => false
  | _ => true

/-- The dependence-graph neighbourhood `InductionVariable::InductionVariable`
traverses: SCC-internality, value kinds, and for each value the sources of
its incoming edges tagged with whether the edge is a data dependence. -/
structure IVGraph where
  internal : Nat → Bool
  kindOf : Nat → ValueKind
  incomingEdges : Nat → List (Nat × Bool)

/-- The three member sets an `InductionVariable` accumulates during its
breadth-first traversal: `PHIs`, `accumulators`, and `allInstructions`. -/
structure IVSets where
  phis : List Nat
  accumulators : List Nat
  allInstructions : List Nat
deriving DecidableEq

/-- One breadth-first traversal of `InductionVariable::InductionVariable`
over the IV's strongly connected component: pop the front of the worklist,
skip visited values, classify the value (PHI versus other instruction,
non-instructions are left out of both sets), and push the sources of
internal data-dependence edges. `fuel` bounds the number of worklist steps;
the C++ loop terminates because the visited set is finite, and every
property proved below holds for all sufficiently large fuels. -/
def collectCycle (g : IVGraph) :
    Nat → List Nat → List Nat → IVSets → IVSets
  | 0, _, _, acc => acc
  | _ + 1, [], _, acc => acc
  | fuel + 1, v :: rest, visited, acc =>
    if v ∈ visited then collectCycle g fuel rest visited acc
    else
      let acc1 :=
        match g.kindOf v with
        | ValueKind.phi =>
          { acc with phis := acc.phis ++ [v],
                     allInstructions := acc.allInstructions ++ [v] }
        | ValueKind.nonInst => acc
        | _ =>
          { acc with accumulators := acc.accumulators ++ [v],
                     allInstructions := acc.allInstructions ++ [v] }
      let pushed :=
        ((g.incomingEdges v).filter (fun e => e.2 && g.internal e.1)).map
          (fun e => e.1)
      collectCycle g fuel (rest ++ pushed) (v :: visited) acc1

/-- The cycle-member collection phase of `InductionVariable`, started from
the header PHI with an empty visited set and empty member sets. -/
def inductionVariableCycle (g : IVGraph) (headerPHI : Nat) (fuel : Nat) : IVSets :=
  collectCycle g fuel [headerPHI] [] ⟨[], [], []⟩

/-- The start-value scan of `InductionVariable::InductionVariable`: walk the
header PHI's incoming (block, value) pairs in order and return the incoming
value of the first block that is not among the loop's basic blocks; `none`
models the uninitialized start value when every incoming block is internal. -/
def findStartValue (bbs : List Nat) : List (Nat × Nat) → Option Nat
  | [] => none
  | (bb, v) :: rest => if bb ∈ bbs then findStartValue bbs rest else some v

/-- Everything `LoopGoverningIVAttribution::LoopGoverningIVAttribution`
reads: the IV's header PHI and instruction set, the header terminator (its
value id, successors and condition, meaningful when its kind is a
conditional branch), the comparison operands, the loop-nest exit blocks,
and the SCC (internality, incoming-edge sources, the list of internal
values, and value kinds). -/
structure AttrInput where
  headerPHI : Nat
  ivInstructions : List Nat
  headerTermId : Nat
  brCondition : Nat
  brSucc0 : Nat
  brSucc1 : Nat
  cmpOperands : Nat → Nat × Nat
  exitBlocks : List Nat
  internal : Nat → Bool
  incomingSources : Nat → List Nat
  internalValues : List Nat
  kindOf : Nat → ValueKind

/-- Outcome of a `LoopGoverningIVAttribution` construction: the
`isWellFormed` flag plus the fields populated on the successful path. -/
structure AttrResult where
  isWellFormed : Bool
  exitBlock : Option Nat
  conditionValue : Option Nat
  conditionValueDerivation : List Nat
deriving DecidableEq

/-- The result of any early `return` in the attribution constructor:
`isWellFormed` stays false. -/
def notWellFormed : AttrResult := ⟨false, none, none, []⟩

/-- The condition-derivation loop of the attribution constructor as written
in the code: the worklist starts at the condition value and is popped but
never re-filled, so only the sources of the condition value's own incoming
edges are examined. An internal source belonging to the IV's instruction
set aborts the attribution (`none`); every other internal source is
inserted into `conditionValueDerivation`. -/
def collectDirectDerivation (ivInsts : List Nat) (internal : Nat → Bool) :
    List Nat → Option (List Nat)
  | [] => some []
  | s :: rest =>
    if internal s then
      if s ∈ ivInsts then none
      else
        match collectDirectDerivation ivInsts internal rest with
        | none => none
        | some l => some (s :: l)
    else collectDirectDerivation ivInsts internal rest

/-- Check 6 of the attribution constructor, per internal value: it must be
an instruction and be either an IV cycle member, a condition-derivation
member, the header comparison, the header branch, an unconditional branch,
a `getelementptr`, or a PHI node; anything else is unclassified. -/
def classifiedInternal (inp : AttrInput) (deriv : List Nat) (v : Nat) : Bool :=
  if (inp.kindOf v).isInstruction = false then false
  else if v ∈ inp.ivInstructions then true
  else if v ∈ deriv then true
  else
    match inp.kindOf v with
    | ValueKind.cmpK => v == inp.brCondition
    | ValueKind.condBranch => v == inp.headerTermId
    | ValueKind.uncondBranch => true
    | ValueKind.gep => true
    | ValueKind.phi => true
    | _ => false

/-- The full decision procedure of
`LoopGoverningIVAttribution::LoopGoverningIVAttribution`: the header
terminator must be a branch whose condition is a comparison (a loop-header
terminator branch reaching the later checks is two-way conditional, since
its condition and both successors are read); exactly one comparison
operand must be the header PHI; a successor lying in the exit-block set
becomes the exit block (successor 0 is checked first, successor 1
otherwise, and no exit successor aborts); an internal condition value has
its incoming internal sources collected, aborting when one belongs to the
IV; finally every internal SCC value must be classified. -/
def attributeGoverningIV (inp : AttrInput) : AttrResult :=
  if inp.kindOf inp.headerTermId ≠ ValueKind.condBranch then notWellFormed
  else if inp.kindOf inp.brCondition ≠ ValueKind.cmpK then notWellFormed
  else
    let opL := (inp.cmpOperands inp.brCondition).1
    let opR := (inp.cmpOperands inp.brCondition).2
    if ¬ (xor (opL = inp.headerPHI) (opR = inp.headerPHI)) then notWellFormed
    else
      let conditionValue := if opL = inp.headerPHI then opR else opL
      let exitB? :=
        if inp.brSucc0 ∈ inp.exitBlocks then some inp.brSucc0
        else if inp.brSucc1 ∈ inp.exitBlocks then some inp.brSucc1
        else none
      match exitB? with
      | none => notWellFormed
      | some exitB =>
        let deriv? :=
          if inp.internal conditionValue then
            collectDirectDerivation inp.ivInstructions inp.internal
              (inp.incomingSources conditionValue)
          else some []
        match deriv? with
        | none => notWellFormed
        | some deriv =>
          if inp.internalValues.all (classifiedInternal inp deriv) then
            ⟨true, some exitB, some conditionValue, deriv⟩
          else notWellFormed

/-- Integer comparison predicates of `CmpInst::Predicate` used by the code. -/
inductive Pred where
  | ICMP_EQ
  | ICMP_NE
  | ICMP_UGT
  | ICMP_UGE
  | ICMP_ULT
  | ICMP_ULE
  | ICMP_SGT
  | ICMP_SGE
  | ICMP_SLT
  | ICMP_SLE
deriving DecidableEq

/-- `CmpInst::getInversePredicate` on the integer predicates. -/
def getInversePredicate : Pred → Pred
  | Pred.ICMP_EQ => Pred.ICMP_NE
  | Pred.ICMP_NE => Pred.ICMP_EQ
  | Pred.ICMP_UGT => Pred.ICMP_ULE
  | Pred.ICMP_UGE => Pred.ICMP_ULT
  | Pred.ICMP_ULT => Pred.ICMP_UGE
  | Pred.ICMP_ULE => Pred.ICMP_UGT
  | Pred.ICMP_SGT => Pred.ICMP_SLE
  | Pred.ICMP_SGE => Pred.ICMP_SLT
  | Pred.ICMP_SLT => Pred.ICMP_SGE
  | Pred.ICMP_SLE => Pred.ICMP_SGT

/-- `CmpInst::getSwappedPredicate` on the integer predicates. -/
def getSwappedPredicate : Pred → Pred
  | Pred.ICMP_EQ => Pred.ICMP_EQ
  | Pred.ICMP_NE => Pred.ICMP_NE
  | Pred.ICMP_UGT => Pred.ICMP_ULT
  | Pred.ICMP_UGE => Pred.ICMP_ULE
  | Pred.ICMP_ULT => Pred.ICMP_UGT
  | Pred.ICMP_ULE => Pred.ICMP_UGE
  | Pred.ICMP_SGT => Pred.ICMP_SLT
  | Pred.ICMP_SGE => Pred.ICMP_SLE
  | Pred.ICMP_SLT => Pred.ICMP_SGT
  | Pred.ICMP_SLE => Pred.ICMP_SGE

/-- Predicates of the less-than / less-or-equal family (signed or unsigned). -/
def Pred.isLessFamily : Pred → Bool
  | Pred.ICMP_SLE | Pred.ICMP_SLT | Pred.ICMP_ULT | Pred.ICMP_ULE => true
  | _ => false

/-- Predicates of the greater-than / greater-or-equal family (signed or
unsigned). -/
def Pred.isGreaterFamily : Pred → Bool
  | Pred.ICMP_UGT | Pred.ICMP_UGE | Pred.ICMP_SGT | Pred.ICMP_SGE => true
  | _ => false

/-- Inputs of `LoopGoverningIVUtility::LoopGoverningIVUtility`: the IV's
literal constant step value, the header comparison's predicate, whether
the IV is the comparison's left operand, and whether the branch exits on
its first successor. -/
structure UtilInput where
  stepValue : Int
  cmpPredicate : Pred
  ivIsLeftOperand : Bool
  exitsOnTrue : Bool
deriving DecidableEq

/-- Fields the utility constructor derives on success. -/
structure UtilResult where
  nonStrictPredicate : Pred
  flipOperandsToUseNonStrictPredicate : Bool
deriving DecidableEq

/-- The exit predicate after the two normalization steps of the utility
constructor: invert when the branch does not exit on its first successor,
then swap when the IV is not the left operand. -/
def normalizedExitPredicate (inp : UtilInput) : Pred :=
  let p := if inp.exitsOnTrue then inp.cmpPredicate
           else getInversePredicate inp.cmpPredicate
  if inp.ivIsLeftOperand then p else getSwappedPredicate p

/-- The predicate case analysis of
`LoopGoverningIVUtility::LoopGoverningIVUtility`: inequality is kept;
equality widens to unsigned greater-or-equal for a strictly positive step
and to unsigned less-or-equal otherwise; the less family asserts the step
is not strictly positive and the greater family asserts it is strictly
positive, a failed assertion aborting the construction (`none`). -/
def deriveNonStrictPredicate (inp : UtilInput) : Option UtilResult :=
  let isStepValuePositive : Bool := decide (0 < inp.stepValue)
  let flip : Bool := ! inp.ivIsLeftOperand
  match normalizedExitPredicate inp with
  | Pred.ICMP_NE => some ⟨Pred.ICMP_NE, flip⟩
  | Pred.ICMP_EQ =>
    some ⟨if isStepValuePositive then Pred.ICMP_UGE else Pred.ICMP_ULE, flip⟩
  | Pred.ICMP_SLE => if isStepValuePositive then none else some ⟨Pred.ICMP_SLE, flip⟩
  | Pred.ICMP_SLT => if isStepValuePositive then none else some ⟨Pred.ICMP_SLT, flip⟩
  | Pred.ICMP_ULT => if isStepValuePositive then none else some ⟨Pred.ICMP_ULT, flip⟩
  | Pred.ICMP_ULE => if isStepValuePositive then none else some ⟨Pred.ICMP_ULE, flip⟩
  | Pred.ICMP_UGT => if isStepValuePositive then some ⟨Pred.ICMP_UGT, flip⟩ else none
  | Pred.ICMP_UGE => if isStepValuePositive then some ⟨Pred.ICMP_UGE, flip⟩ else none
  | Pred.ICMP_SGT => if isStepValuePositive then some ⟨Pred.ICMP_SGT, flip⟩ else none
  | Pred.ICMP_SGE => if isStepValuePositive then some ⟨Pred.ICMP_SGE, flip⟩ else none

/-- The mutable state
`LoopGoverningIVUtility::updateConditionAndBranchToCatchIteratingPastExitValue`
acts on: the comparison's two operands and predicate, and the branch's two
successors. -/
structure GuardState where
  opL : Nat
  opR : Nat
  predicate : Pred
  succ0 : Nat
  succ1 : Nat
deriving DecidableEq

/-- `updateConditionAndBranchToCatchIteratingPastExitValue`: swap the
comparison operands when `flipOperandsToUseNonStrictPredicate` is set, set
the predicate to the non-strict predicate, and when the branch's first
successor is not the exit block move the first successor to second place
and install the exit block first. -/
def rewriteExitGuard (flip : Bool) (nonStrict : Pred) (exitBlock : Nat)
    (s : GuardState) : GuardState :=
  let s1 := if flip then { s with opL := s.opR, opR := s.opL } else s
  let s2 := { s1 with predicate := nonStrict }
  if s2.succ0 ≠ exitBlock then { s2 with succ0 := exitBlock, succ1 := s2.succ0 }
  else s2

/-- State of `ThreadSafeQueue`: the queued items (front first) and the
`m_valid` flag. -/
structure TSQueue (α : Type) where
  items : List α
  valid : Bool
deriving DecidableEq

/-- `ThreadSafeQueue::internal_push`: append the value at the back. -/
def TSQueue.internalPush {α : Type} (v : α) (s : TSQueue α) : TSQueue α :=
  { s with items := s.items ++ [v] }

/-- `ThreadSafeQueue::push`: takes the lock and calls `internal_push`
unconditionally; the validity flag is never consulted and no status is
returned. -/
def TSQueue.push {α : Type} (v : α) (s : TSQueue α) : TSQueue α :=
  TSQueue.internalPush v s

/-- `ThreadSafeQueue::waitPush`: wait until the size is below `maxSize` or
the queue is invalid (`none` models a caller still blocked on the full
condition), then fail if invalid, otherwise push and succeed. -/
def TSQueue.waitPush {α : Type} (v : α) (maxSize : Int) (s : TSQueue α) :
    Option (Bool × TSQueue α) :=
  if (s.items.length : Int) < maxSize ∨ s.valid = false then
    if s.valid = false then some (false, s)
    else some (true, TSQueue.internalPush v s)
  else none

/-- `ThreadSafeQueue::tryPop`: fail without touching the queue when it is
empty or invalid; otherwise pop the front element. -/
def TSQueue.tryPop {α : Type} (s : TSQueue α) : Bool × Option α × TSQueue α :=
  if s.items.isEmpty || ! s.valid then (false, none, s)
  else (true, s.items.head?, { s with items := s.items.tail })

/-- `ThreadSafeQueue::waitPop`: fail immediately when the queue is invalid;
block on the empty condition when it is valid but empty (`none`, since in
this sequential model no other thread refills or invalidates it);
otherwise pop the front element. -/
def TSQueue.waitPop {α : Type} (s : TSQueue α) : Option (Bool × Option α × TSQueue α) :=
  if s.valid = false then some (false, none, s)
  else if s.items.isEmpty then none
  else some (true, s.items.head?, { s with items := s.items.tail })

/-- `ThreadSafeQueue::invalidate`: clear the validity flag (idempotent),
leaving the queued items in place. -/
def TSQueue.invalidate {α : Type} (s : TSQueue α) : TSQueue α :=
  if s.valid = false then s else { s with valid := false }

/-- A header PHI whose add-recurrence step is a multiplication, so its
constructed IV has an absent step. -/
def absentStepPhi : PhiInfo := ⟨0, SCEV.scAddRecExpr SCEV.scMulExpr⟩

/-- A header PHI that is an add-recurrence with literal constant step 1. -/
def constStepPhi : PhiInfo := ⟨0, SCEV.scAddRecExpr (SCEV.scConstant 1)⟩

/-- A one-loop summary whose header carries the constant-step PHI. -/
def sampleLoops : List LoopInfoM := [⟨7, [constStepPhi]⟩]

/-- A concrete SCC for the attribution: header PHI 0 and accumulator 1 form
the IV cycle; value 2 is the header's conditional branch with successors
100 and 101; value 3 is the header comparison between the PHI and value 4;
the condition value 4 is an internal PHI fed by internal instruction 5,
which in turn is fed by the IV-cycle accumulator 1 — so the condition is
transitively (depth two) derived from the IV's own cycle. -/
def inpC1 : AttrInput where
  headerPHI := 0
  ivInstructions := [0, 1]
  headerTermId := 2
  brCondition := 3
  brSucc0 := 100
  brSucc1 := 101
  cmpOperands := fun v => if v = 3 then (0, 4) else (0, 0)
  exitBlocks := [100]
  internal := fun v => v = 0 || v = 1 || v = 3 || v = 4 || v = 5
  incomingSources := fun v => if v = 4 then [5] else if v = 5 then [1] else []
  internalValues := [0, 1, 3, 4, 5]
  kindOf := fun v =>
    if v = 0 then ValueKind.phi
    else if v = 2 then ValueKind.condBranch
    else if v = 3 then ValueKind.cmpK
    else if v = 4 then ValueKind.phi
    else ValueKind.otherInst

/-- A concrete SCC whose header branch has two distinct successors that are
both exit blocks of the loop nest; everything else is well formed (IV cycle
0 and 1, header branch 2, header comparison 3 against the external value 9). -/
def inpC2 : AttrInput where
  headerPHI := 0
  ivInstructions := [0, 1]
  headerTermId := 2
  brCondition := 3
  brSucc0 := 100
  brSucc1 := 101
  cmpOperands := fun v => if v = 3 then (0, 9) else (0, 0)
  exitBlocks := [100, 101]
  internal := fun v => v = 0 || v = 1 || v = 3
  incomingSources := fun _ => []
  internalValues := [0, 1, 3]
  kindOf := fun v =>
    if v = 0 then ValueKind.phi
    else if v = 2 then ValueKind.condBranch
    else if v = 3 then ValueKind.cmpK
    else ValueKind.otherInst

/-- A dependence graph with a lone PHI value 0 and no internal edges. -/
def sampleIVGraph : IVGraph where
  internal := fun _ => false
  kindOf := fun v => if v = 0 then ValueKind.phi else ValueKind.otherInst
  incomingEdges := fun _ => []

/-- Helper: an IV appears in a loop's IV set only when its step is a literal
constant. -/
theorem registerIVs_mem_step (wf : PhiInfo → Bool) :
    ∀ (phis : List PhiInfo) (phi : PhiInfo),
      phi ∈ (registerIVs wf phis).1 → phiStepSize phi ≠ none := by
  intro phis
  induction phis with
  | nil => intro phi h; simp [registerIVs] at h
  | cons p rest ih =>
    intro phi h
    cases hstep : phiStepSize p with
    | none =>
      rw [registerIVs] at h
      simp only [hstep] at h
      exact ih phi h
    | some v =>
      rw [registerIVs] at h
      simp only [hstep] at h
      rcases List.mem_cons.mp h with heq | hmem
      · rw [heq, hstep]; simp
      · exact ih phi hmem

/-- Helper: the governing IV registered for a loop has a literal constant
step. -/
theorem registerIVs_governing_step (wf : PhiInfo → Bool) :
    ∀ (phis : List PhiInfo) (phi : PhiInfo),
      (registerIVs wf phis).2 = some phi → phiStepSize phi ≠ none := by
  intro phis
  induction phis with
  | nil => intro phi h; simp [registerIVs] at h
  | cons p rest ih =>
    intro phi h
    cases hstep : phiStepSize p with
    | none =>
      rw [registerIVs] at h
      simp only [hstep] at h
      exact ih phi h
    | some v =>
      rw [registerIVs] at h
      simp only [hstep] at h
      cases hr : (registerIVs wf rest).2 with
      | some g => rw [hr] at h; simp at h; exact h ▸ ih g hr
      | none =>
        rw [hr] at h
        by_cases hwf : wf p = true
        · simp [hwf] at h
          rw [← h, hstep]; simp
        · simp [hwf] at h

/-- Helper: the governing IV registered for a loop is a member of the
loop's IV set. -/
theorem registerIVs_governing_mem (wf : PhiInfo → Bool) :
    ∀ (phis : List PhiInfo) (phi : PhiInfo),
      (registerIVs wf phis).2 = some phi → phi ∈ (registerIVs wf phis).1 := by
  intro phis
  induction phis with
  | nil => intro phi h; simp [registerIVs] at h
  | cons p rest ih =>
    intro phi h
    cases hstep : phiStepSize p with
    | none =>
      rw [registerIVs] at h ⊢
      simp only [hstep] at h ⊢
      exact ih phi h
    | some v =>
      rw [registerIVs] at h ⊢
      simp only [hstep] at h ⊢
      cases hr : (registerIVs wf rest).2 with
      | some g =>
        rw [hr] at h; simp at h
        exact List.mem_cons_of_mem p (h ▸ ih g hr)
      | none =>
        rw [hr] at h
        by_cases hwf : wf p = true
        · simp [hwf] at h
          rw [← h]; exact List.mem_cons_self p _
        · simp [hwf] at h

/-- Helper: values already collected in `allInstructions` survive the rest
of the breadth-first traversal. -/
theorem collectCycle_mono (g : IVGraph) :
    ∀ (fuel : Nat) (queue visited : List Nat) (acc : IVSets) (x : Nat),
      x ∈ acc.allInstructions →
      x ∈ (collectCycle g fuel queue visited acc).allInstructions := by
  intro fuel
  induction fuel with
  | zero => intro queue visited acc x hx; simpa [collectCycle] using hx
  | succ n ih =>
    intro queue visited acc x hx
    cases queue with
    | nil => simpa [collectCycle] using hx
    | cons v rest =>
      rw [collectCycle]
      by_cases hv : v ∈ visited
      · simp only [hv, if_pos]
        exact ih rest visited acc x hx
      · simp only [hv, if_neg, not_false_iff]
        apply ih
        cases hk : g.kindOf v <;> simp [hk, hx]

/-- Helper: when some incoming edge of the header PHI comes from a block
outside the loop, the start-value scan returns the value of the first such
edge, whose source block lies outside the loop. -/
theorem findStartValue_external (bbs : List Nat) :
    ∀ (incomings : List (Nat × Nat)), (∃ p ∈ incomings, p.1 ∉ bbs) →
      ∃ p ∈ incomings, p.1 ∉ bbs ∧ findStartValue bbs incomings = some p.2 := by
  intro incomings
  induction incomings with
  | nil => intro h; simp at h
  | cons q rest ih =>
    intro h
    by_cases hq : q.1 ∈ bbs
    · have hrest : ∃ p ∈ rest, p.1 ∉ bbs := by
        rcases h with ⟨p, hp, hpb⟩
        rcases List.mem_cons.mp hp with rfl | hmem
        · exact absurd hq hpb
        · exact ⟨p, hmem, hpb⟩
      rcases ih hrest with ⟨p, hmem, hpb, hfind⟩
      refine ⟨p, List.mem_cons_of_mem q hmem, hpb, ?_⟩
      cases q with
      | mk bb v => simpa [findStartValue, hq] using hfind
    · refine ⟨q, List.mem_cons_self q rest, hq, ?_⟩
      cases q with
      | mk bb v => simp_all [findStartValue]

/-- C3: for a well-formed attribution whose normalized (exit-on-true,
IV-on-left) exit predicate is an equality test, the utility derives the
inclusive greater-or-equal predicate when the IV's constant step is
strictly positive and the inclusive less-or-equal predicate when the step
is negative. -/
theorem equality_exit_predicate_widened (inp : UtilInput)
    (h : normalizedExitPredicate inp = Pred.ICMP_EQ) :
    (0 < inp.stepValue →
      deriveNonStrictPredicate inp =
        some ⟨Pred.ICMP_UGE, ! inp.ivIsLeftOperand⟩) ∧
    (inp.stepValue < 0 →
      deriveNonStrictPredicate inp =
        some ⟨Pred.ICMP_ULE, ! inp.ivIsLeftOperand⟩) := by
  constructor
  · intro hp
    simp only [deriveNonStrictPredicate, h]
    simp [hp]
  · intro hn
    have hnp : ¬ (0 < inp.stepValue) := by omega
    simp only [deriveNonStrictPredicate, h]
    simp [hnp]

/-- Witness for C3 at step 1 and step -1 with an equality exit comparison. -/
theorem equality_exit_predicate_widened_w :
    deriveNonStrictPredicate ⟨1, Pred.ICMP_EQ, true, true⟩ =
      some ⟨Pred.ICMP_UGE, false⟩ ∧
    deriveNonStrictPredicate ⟨-1, Pred.ICMP_EQ, true, true⟩ =
      some ⟨Pred.ICMP_ULE, false⟩ :=
  ⟨(equality_exit_predicate_widened ⟨1, Pred.ICMP_EQ, true, true⟩ rfl).1 (by decide),
   (equality_exit_predicate_widened ⟨-1, Pred.ICMP_EQ, true, true⟩ rfl).2 (by decide)⟩

/-- C4 counterexample: with `flipOperandsToUseNonStrictPredicate` set, two
applications of the exit-guard rewrite do not equal one application — the
second swaps the comparison operands back. -/
theorem rewriteExitGuard_not_idempotent :
    rewriteExitGuard true Pred.ICMP_UGE 2
        (rewriteExitGuard true Pred.ICMP_UGE 2 ⟨0, 1, Pred.ICMP_EQ, 2, 3⟩) ≠
      rewriteExitGuard true Pred.ICMP_UGE 2 ⟨0, 1, Pred.ICMP_EQ, 2, 3⟩ := by
  decide

/-- C4 (amended): the exit-guard rewrite is idempotent when the operands
are not flipped; when they are flipped, a second application restores the
original operand order while the predicate and both branch successors stay
exactly as after one application. -/
theorem rewriteExitGuard_idempotent_unless_flipped (nonStrict : Pred)
    (exitBlock : Nat) (s : GuardState) :
    (rewriteExitGuard false nonStrict exitBlock
        (rewriteExitGuard false nonStrict exitBlock s) =
      rewriteExitGuard false nonStrict exitBlock s) ∧
    ((rewriteExitGuard true nonStrict exitBlock
        (rewriteExitGuard true nonStrict exitBlock s)).opL = s.opL ∧
     (rewriteExitGuard true nonStrict exitBlock
        (rewriteExitGuard true nonStrict exitBlock s)).opR = s.opR ∧
     (rewriteExitGuard true nonStrict exitBlock
        (rewriteExitGuard true nonStrict exitBlock s)).predicate =
       (rewriteExitGuard true nonStrict exitBlock s).predicate ∧
     (rewriteExitGuard true nonStrict exitBlock
        (rewriteExitGuard true nonStrict exitBlock s)).succ0 =
       (rewriteExitGuard true nonStrict exitBlock s).succ0 ∧
     (rewriteExitGuard true nonStrict exitBlock
        (rewriteExitGuard true nonStrict exitBlock s)).succ1 =
       (rewriteExitGuard true nonStrict exitBlock s).succ1) := by
  by_cases hs : s.succ0 = exitBlock <;>
    simp [rewriteExitGuard, hs]

/-- C8: when the normalized exit predicate lies in the less-than family
while the step is strictly positive, or in the greater-than family while
the step is negative, the utility constructor aborts (its step-sign
assertion fails) instead of producing a non-strict predicate. -/
theorem sign_mismatch_aborts (inp : UtilInput) :
    ((normalizedExitPredicate inp).isLessFamily = true → 0 < inp.stepValue →
      deriveNonStrictPredicate inp = none) ∧
    ((normalizedExitPredicate inp).isGreaterFamily = true → inp.stepValue < 0 →
      deriveNonStrictPredicate inp = none) := by
  constructor
  · intro hf hp
    cases hpred : normalizedExitPredicate inp <;>
      simp_all [deriveNonStrictPredicate, Pred.isLessFamily]
  · intro hf hn
    have hnp : ¬ (0 < inp.stepValue) := by omega
    cases hpred : normalizedExitPredicate inp <;>
      simp_all [deriveNonStrictPredicate, Pred.isGreaterFamily]

/-- Witness for C8: a positive-step IV with an unsigned less-than exit test
aborts, and a negative-step IV with an unsigned greater-than exit test
aborts. -/
theorem sign_mismatch_aborts_w :
    deriveNonStrictPredicate ⟨1, Pred.ICMP_ULT, true, true⟩ = none ∧
    deriveNonStrictPredicate ⟨-1, Pred.ICMP_UGT, true, true⟩ = none :=
  ⟨(sign_mismatch_aborts ⟨1, Pred.ICMP_ULT, true, true⟩).1 (by decide) (by decide),
   (sign_mismatch_aborts ⟨-1, Pred.ICMP_UGT, true, true⟩).2 (by decide) (by decide)⟩

/-- C9 counterexample: `push` performs no validity check, so pushing onto
an invalidated queue changes its contents instead of failing (and `push`
returns no status at all). -/
theorem push_after_invalidate_mutates :
    (TSQueue.push 5 (TSQueue.invalidate (⟨[], true⟩ : TSQueue Nat))).items ≠
      (TSQueue.invalidate (⟨[], true⟩ : TSQueue Nat)).items := by
  decide

/-- C9 (amended): once the queue is invalid, `waitPush`, `tryPop` and
`waitPop` each report failure and leave the contents unchanged, while
`push` (which returns nothing) still appends its value; no operation
restores validity, so every state reached after `invalidate` stays
invalid. -/
theorem invalidated_queue_ops (α : Type) (v : α) (maxSize : Int)
    (s : TSQueue α) (h : s.valid = false) :
    TSQueue.waitPush v maxSize s = some (false, s) ∧
    TSQueue.tryPop s = (false, none, s) ∧
    TSQueue.waitPop s = some (false, none, s) ∧
    TSQueue.push v s = { s with items := s.items ++ [v] } ∧
    (TSQueue.push v s).valid = false := by
  refine ⟨?_, ?_, ?_, ?_, ?_⟩ <;>
    simp [TSQueue.waitPush, TSQueue.tryPop, TSQueue.waitPop, TSQueue.push,
      TSQueue.internalPush, h]

/-- Witness for C9 (amended) on the invalidated two-element queue [1, 2]. -/
theorem invalidated_queue_ops_w :
    TSQueue.waitPush 7 3 (⟨[1, 2], false⟩ : TSQueue Nat) =
      some (false, ⟨[1, 2], false⟩) ∧
    TSQueue.tryPop (⟨[1, 2], false⟩ : TSQueue Nat) =
      (false, none, ⟨[1, 2], false⟩) ∧
    TSQueue.waitPop (⟨[1, 2], false⟩ : TSQueue Nat) =
      some (false, none, ⟨[1, 2], false⟩) ∧
    TSQueue.push 7 (⟨[1, 2], false⟩ : TSQueue Nat) = ⟨[1, 2, 7], false⟩ ∧
    (TSQueue.push 7 (⟨[1, 2], false⟩ : TSQueue Nat)).valid = false :=
  invalidated_queue_ops Nat 7 3 ⟨[1, 2], false⟩ rfl

/-- C5 counterexample: an IV whose add-recurrence step is a multiplication
(absent step) is deleted by the `InductionVariables` constructor, so the
loop's IV set comes back empty — the IV is not retained and not returned
by the set's query. -/
theorem absent_step_iv_not_retained :
    phiStepSize absentStepPhi = none ∧
    inductionVariables (fun _ => false) [⟨7, [absentStepPhi]⟩] =
      [(7, ([], none))] ∧
    absentStepPhi ∉ (registerIVs (fun _ => false) [absentStepPhi]).1 := by
  decide

/-- C5 (amended): an IV constructed with an absent (non-constant) step is
deleted rather than retained — every IV in any loop's registered set has a
literal constant step, so absent-step IVs are never returned by the set's
query. -/
theorem absent_step_iv_discarded (wf : PhiInfo → Bool) (loops : List LoopInfoM)
    (lid : Nat) (r : List PhiInfo × Option PhiInfo) (phi : PhiInfo)
    (hmem : (lid, r) ∈ inductionVariables wf loops) (hphi : phi ∈ r.1) :
    phiStepSize phi ≠ none := by
  rcases List.mem_map.mp hmem with ⟨l, hl, heq⟩
  cases heq
  exact registerIVs_mem_step wf l.headerPhis phi hphi

/-- Witness for C5 (amended): a retained constant-step IV indeed has a
present step. -/
theorem absent_step_iv_discarded_w :
    phiStepSize ⟨3, SCEV.scAddRecExpr (SCEV.scConstant 2)⟩ ≠ none :=
  absent_step_iv_discarded (fun _ => true)
    [⟨9, [⟨3, SCEV.scAddRecExpr (SCEV.scConstant 2)⟩]⟩] 9
    ([⟨3, SCEV.scAddRecExpr (SCEV.scConstant 2)⟩],
      some ⟨3, SCEV.scAddRecExpr (SCEV.scConstant 2)⟩)
    ⟨3, SCEV.scAddRecExpr (SCEV.scConstant 2)⟩ (by decide) (by decide)

/-- C6: an IV with an absent step is never registered as, nor returned as,
a loop's governing induction variable: every governing IV carries a
literal constant step. -/
theorem governing_iv_has_step (wf : PhiInfo → Bool) (loops : List LoopInfoM)
    (lid : Nat) (r : List PhiInfo × Option PhiInfo) (phi : PhiInfo)
    (hmem : (lid, r) ∈ inductionVariables wf loops) (hgov : r.2 = some phi) :
    phiStepSize phi ≠ none := by
  rcases List.mem_map.mp hmem with ⟨l, hl, heq⟩
  cases heq
  exact registerIVs_governing_step wf l.headerPhis phi hgov

/-- Witness for C6 on the one-loop summary with a constant-step PHI. -/
theorem governing_iv_has_step_w : phiStepSize constStepPhi ≠ none :=
  governing_iv_has_step (fun _ => true) sampleLoops 7
    ([constStepPhi], some constStepPhi) constStepPhi (by decide) (by decide)

/-- C10: whenever the governing-IV query returns an IV for a loop, that IV
belongs to the set returned by the same loop's induction-variable query. -/
theorem governing_iv_in_set (wf : PhiInfo → Bool) (loops : List LoopInfoM)
    (lid : Nat) (r : List PhiInfo × Option PhiInfo) (phi : PhiInfo)
    (hmem : (lid, r) ∈ inductionVariables wf loops) (hgov : r.2 = some phi) :
    phi ∈ r.1 := by
  rcases List.mem_map.mp hmem with ⟨l, hl, heq⟩
  cases heq
  exact registerIVs_governing_mem wf l.headerPhis phi hgov

/-- Witness for C10 on the one-loop summary with a constant-step PHI. -/
theorem governing_iv_in_set_w : constStepPhi ∈ [constStepPhi] :=
  governing_iv_in_set (fun _ => true) sampleLoops 7
    ([constStepPhi], some constStepPhi) constStepPhi (by decide) (by decide)

/-- C7: for every recognized IV, the header PHI is a member of the
collected cycle (`allInstructions`), and whenever the header PHI has an
incoming edge from a block outside the loop, the start value is the
incoming value of the first such edge — a value sourced outside the loop's
member-block set. -/
theorem header_in_cycle_and_start_external (g : IVGraph) (headerPHI fuel : Nat)
    (bbs : List Nat) (incomings : List (Nat × Nat))
    (hphi : g.kindOf headerPHI = ValueKind.phi) (hfuel : 1 ≤ fuel)
    (hext : ∃ p ∈ incomings, p.1 ∉ bbs) :
    headerPHI ∈ (inductionVariableCycle g headerPHI fuel).allInstructions ∧
    ∃ p ∈ incomings, p.1 ∉ bbs ∧ findStartValue bbs incomings = some p.2 := by
  refine ⟨?_, findStartValue_external bbs incomings hext⟩
  obtain ⟨n, rfl⟩ : ∃ n, fuel = n + 1 := ⟨fuel - 1, by omega⟩
  unfold inductionVariableCycle
  rw [collectCycle]
  rw [if_neg (List.not_mem_nil headerPHI)]
  simp only [hphi]
  apply collectCycle_mono
  simp

/-- Witness for C7 on the lone-PHI graph with an external incoming edge
from block 20. -/
theorem header_in_cycle_and_start_external_w :
    (0 : Nat) ∈ (inductionVariableCycle sampleIVGraph 0 1).allInstructions ∧
    ∃ p ∈ [((10 : Nat), (5 : Nat)), (20, 6)], p.1 ∉ [(10 : Nat)] ∧
      findStartValue [10] [(10, 5), (20, 6)] = some p.2 :=
  header_in_cycle_and_start_external sampleIVGraph 0 1 [10] [(10, 5), (20, 6)]
    (by decide) (by decide) ⟨(20, 6), by decide, by decide⟩

/-- C1 (code defect): in `inpC1` the condition value 4 is internal and
transitively derived from the IV's own cycle (4 depends on 5, which
depends on the IV accumulator 1), yet the attribution collects only the
direct producer 5 — the derivation worklist is popped but never refilled —
and reports the SCC well formed instead of rejecting the circular
derivation. -/
theorem derivation_misses_transitive_producer :
    (attributeGoverningIV inpC1).isWellFormed = true ∧
    (attributeGoverningIV inpC1).conditionValue = some 4 ∧
    inpC1.internal 4 = true ∧
    inpC1.incomingSources 4 = [5] ∧
    inpC1.internal 5 = true ∧
    inpC1.incomingSources 5 = [1] ∧
    inpC1.internal 1 = true ∧
    (1 : Nat) ∈ inpC1.ivInstructions ∧
    (attributeGoverningIV inpC1).conditionValueDerivation = [5] := by
  decide

/-- C2 counterexample: a header branch whose two distinct successors are
both exit blocks of the loop nest is still attributed well formed; the
code takes the first successor as the exit block rather than rejecting the
ambiguity. -/
theorem both_exit_successors_still_wellFormed :
    inpC2.brSucc0 ∈ inpC2.exitBlocks ∧
    inpC2.brSucc1 ∈ inpC2.exitBlocks ∧
    inpC2.brSucc0 ≠ inpC2.brSucc1 ∧
    (attributeGoverningIV inpC2).isWellFormed = true ∧
    (attributeGoverningIV inpC2).exitBlock = some inpC2.brSucc0 := by
  decide

/-- C2 (amended): a well-formed attribution requires at least one of the
branch's two successors to be an exit block of the loop nest — if neither
successor is an exit the attribution is not well formed; when both are,
the attribution still succeeds with successor 0 as the exit block. -/
theorem wellFormed_requires_exit_successor (inp : AttrInput)
    (h : (attributeGoverningIV inp).isWellFormed = true) :
    inp.brSucc0 ∈ inp.exitBlocks ∨ inp.brSucc1 ∈ inp.exitBlocks := by
  by_contra hc
  push_neg at hc
  simp [attributeGoverningIV, hc.1, hc.2, notWellFormed, apply_ite] at h

/-- Witness for C2 (amended) on the well-formed concrete SCC `inpC1`. -/
theorem wellFormed_requires_exit_successor_w :
    inpC1.brSucc0 ∈ inpC1.exitBlocks ∨ inpC1.brSucc1 ∈ inpC1.exitBlocks :=
  wellFormed_requires_exit_successor inpC1 (by decide)

